import Mathlib

/-!
Verification development for the TrailingBinanceBot repository.

The JavaScript source is shallowly embedded: positions are immutable
records, mutation is explicit state passing, and JavaScript numbers are
modelled as rationals (ℚ) with exact arithmetic.  External boundary
concerns (the Binance client, order ids, wall-clock dates, logging) are
elided, as the spec excludes them from the core; all price/stop/profit
bookkeeping follows the source line by line.
-/

/-- Per-position trailing settings (`this.trailingSettings` in `position.js`).
A `none` models JavaScript `null`/`undefined` (field absent). -/
structure TrailSettings where
  initialStopDistancePercent : Option ℚ
  activationThresholdPercent : Option ℚ
  trailingDistancePercent : Option ℚ
deriving DecidableEq, Repr

/-- JavaScript `a || b` on an optional numeric left operand: `none`
(null/undefined) and `some 0` are falsy and fall through to `b`. -/
def jsOr (a : Option ℚ) (b : ℚ) : ℚ :=
  match a with
  | none => b
  | some v => if v = 0 then b else v

/-- Position lifecycle states (`position.js`). -/
inductive Status where
  | OPENING
  | ACTIVE
  | CLOSING
  | CLOSED
deriving DecidableEq, Repr

/-- A trading position (`Position` in `position.js`).  Order ids and the
open/close dates (wall clock) are elided as external boundary state. -/
structure Position where
  symbol : String
  entryPrice : ℚ
  quantity : ℚ
  highestPrice : ℚ
  currentPrice : ℚ
  initialStopPrice : ℚ
  currentTrailingStop : ℚ
  status : Status
  profit : ℚ
  profitPercent : ℚ
  trailingSettings : TrailSettings
  notes : String
deriving DecidableEq, Repr

/-- `new Position(symbol, entryPrice, quantity)`: fresh position with
`highestPrice = currentPrice = entryPrice`, stops unset (0), settings null. -/
def Position.mk0 (symbol : String) (entryPrice quantity : ℚ) : Position :=
  { symbol := symbol
    entryPrice := entryPrice
    quantity := quantity
    highestPrice := entryPrice
    currentPrice := entryPrice
    initialStopPrice := 0
    currentTrailingStop := 0
    status := Status.OPENING
    profit := 0
    profitPercent := 0
    trailingSettings := ⟨none, none, none⟩
    notes := "" }

/-- `Position.updateProfit()`: recomputes profit and profitPercent from
`currentPrice`; no-op when `currentPrice` is falsy (0). -/
def updateProfit (p : Position) : Position :=
  if p.currentPrice = 0 then p
  else
    { p with
      profit := p.quantity * p.currentPrice - p.quantity * p.entryPrice
      profitPercent := (p.currentPrice / p.entryPrice - 1) * 100 }

/-- `Position.setInitialStop(stopPrice)`: sets both `initialStopPrice` and
`currentTrailingStop`. -/
def setInitialStop (p : Position) (stopPrice : ℚ) : Position :=
  { p with initialStopPrice := stopPrice, currentTrailingStop := stopPrice }

/-- The effective settings triple computed at the top of
`Position.updateTrailingStop` via JavaScript `||` chains against the
position's stored settings and the hard defaults `(2, 1, 1.5)`. -/
def resolveActive (s : TrailSettings) (p : Position) : TrailSettings :=
  ⟨some (jsOr s.initialStopDistancePercent
          (jsOr p.trailingSettings.initialStopDistancePercent 2)),
   some (jsOr s.activationThresholdPercent
          (jsOr p.trailingSettings.activationThresholdPercent 1)),
   some (jsOr s.trailingDistancePercent
          (jsOr p.trailingSettings.trailingDistancePercent (3/2)))⟩

/-- `Position.updateTrailingStop(settings)` from `position.js`: resolve
effective settings, `Object.assign` them into the stored settings, then
either initialize the stop (when `currentTrailingStop === 0`), keep it
(activation gate), or ratchet it up to `highestPrice - trailingDistance`.
The JavaScript return value is the `currentTrailingStop` field of the
result. -/
def updateTrailingStop (p : Position) (s : TrailSettings) : Position :=
  let isd := jsOr s.initialStopDistancePercent
      (jsOr p.trailingSettings.initialStopDistancePercent 2)
  let atp := jsOr s.activationThresholdPercent
      (jsOr p.trailingSettings.activationThresholdPercent 1)
  let tdp := jsOr s.trailingDistancePercent
      (jsOr p.trailingSettings.trailingDistancePercent (3/2))
  let p1 := { p with trailingSettings := ⟨some isd, some atp, some tdp⟩ }
  if p1.currentTrailingStop = 0 then
    let stopDistance := p1.entryPrice * (isd / 100)
    setInitialStop p1 (p1.entryPrice - stopDistance)
  else
    let p2 := updateProfit p1
    if p2.profitPercent < atp then p2
    else
      let trailingDistance := p2.highestPrice * (tdp / 100)
      let newPossibleStop := p2.highestPrice - trailingDistance
      if newPossibleStop > p2.currentTrailingStop then
        { p2 with currentTrailingStop := newPossibleStop }
      else p2

/-- `Position.close(closePrice, closeReason)`: no-op when already CLOSED,
otherwise set `currentPrice` to the close price, recompute profit, mark
CLOSED and append the reason to `notes`.  (The `closeDate` wall-clock stamp
is elided.) -/
def closePos (p : Position) (closePrice : ℚ) (reason : String) : Position :=
  if p.status = Status.CLOSED then p
  else
    { updateProfit { p with currentPrice := closePrice } with
      status := Status.CLOSED
      notes := p.notes ++ " Closed: " ++ reason }

/-- The closed-trade record pushed onto `profitHistory` by
`TrailingProfitMaximizer.closePosition` (dates/holding time elided as
wall-clock state). -/
structure Trade where
  symbol : String
  entryPrice : ℚ
  exitPrice : ℚ
  quantity : ℚ
  profit : ℚ
  profitPercent : ℚ
  stopPrice : ℚ
  reason : String
deriving DecidableEq, Repr

/-- `TrailingProfitMaximizer.closePosition(position, closePrice, reason)`
in paper mode: close the position, then record the trade built from the
closed position's fields. -/
def closePosition (p : Position) (closePrice : ℚ) (reason : String) :
    Position × Trade :=
  let pc := closePos p closePrice reason
  (pc,
   { symbol := pc.symbol
     entryPrice := pc.entryPrice
     exitPrice := closePrice
     quantity := pc.quantity
     profit := pc.profit
     profitPercent := pc.profitPercent
     stopPrice := pc.currentTrailingStop
     reason := reason })

/-- `TrailingProfitMaximizer.updateTrailingStops()`: one pass applying
`updateTrailingStop` with the configured settings to every ACTIVE
position (stop-order bookkeeping at the exchange boundary elided). -/
def innerPass (cfg : TrailSettings) (ps : List Position) : List Position :=
  ps.map fun p => if p.status = Status.ACTIVE then updateTrailingStop p cfg else p

/-- One iteration of the per-candle position loop in `Backtester.run`
(lines 214-242): update `currentPrice` to the close, recompute profit,
close at the trailing stop if the candle low touches it (and skip the
rest of the body), otherwise raise `highestPrice` to the candle high and
run the bot-wide `updateTrailingStops` pass. -/
def processIdx (cfg : TrailSettings) (high low close : ℚ)
    (st : List Position × List Trade) (i : ℕ) : List Position × List Trade :=
  match st.1[i]? with
  | none => st
  | some p =>
    let p1 := updateProfit { p with currentPrice := close }
    if 0 < p1.currentTrailingStop ∧ low ≤ p1.currentTrailingStop then
      let r := closePosition p1 p1.currentTrailingStop "StopLoss (Backtest)"
      (st.1.set i r.1, st.2 ++ [r.2])
    else
      let p2 := if high > p1.highestPrice then { p1 with highestPrice := high } else p1
      let ps2 := st.1.set i p2
      (if p2.status = Status.ACTIVE then innerPass cfg ps2 else ps2, st.2)

/-- The indices of the `getActivePositions()` snapshot taken before the
per-candle loop. -/
def activeIdxs (ps : List Position) : List ℕ :=
  (List.range ps.length).filter fun i => ps[i]?.map Position.status = some Status.ACTIVE

/-- The full per-candle step of `Backtester.run` (lines 212-244): loop
over the snapshot of ACTIVE positions, then run the final consolidated
`updateTrailingStops` pass. -/
def processCandle (cfg : TrailSettings) (high low close : ℚ)
    (ps : List Position) : List Position × List Trade :=
  let st := (activeIdxs ps).foldl (processIdx cfg high low close) (ps, [])
  (innerPass cfg st.1, st.2)

/-- Modelled from the spec (§4.5): the per-candle step with a single
batched trailing-stop-update pass after all positions' price updates,
i.e. the same loop as `processIdx` but without the interleaved
per-position `updateTrailingStops` invocations. -/
def processIdxBatched (high low close : ℚ)
    (st : List Position × List Trade) (i : ℕ) : List Position × List Trade :=
  match st.1[i]? with
  | none => st
  | some p =>
    let p1 := updateProfit { p with currentPrice := close }
    if 0 < p1.currentTrailingStop ∧ low ≤ p1.currentTrailingStop then
      let r := closePosition p1 p1.currentTrailingStop "StopLoss (Backtest)"
      (st.1.set i r.1, st.2 ++ [r.2])
    else
      let p2 := if high > p1.highestPrice then { p1 with highestPrice := high } else p1
      (st.1.set i p2, st.2)

/-- Modelled from the spec (§4.5): batched per-candle semantics — all
price/highest-price updates and stop triggers first, then one
consolidated trailing-stop-update pass across all ACTIVE positions. -/
def processCandleBatched (cfg : TrailSettings) (high low close : ℚ)
    (ps : List Position) : List Position × List Trade :=
  let st := (activeIdxs ps).foldl (processIdxBatched high low close) (ps, [])
  (innerPass cfg st.1, st.2)

/-- A candle record as formatted by `Backtester.loadHistoricalData`
(positional kline array; only the fields the post-processing reads are
given names, the numeric payload is kept for faithfulness). -/
structure Kline where
  openTime : ℤ
  open_ : ℚ
  high : ℚ
  low : ℚ
  close : ℚ
  closeTime : ℤ
deriving DecidableEq, Repr

/-- The date-range filter of `loadHistoricalData` (line 106):
`kline[0] >= finalStartTime && kline[6] <= finalEndTime`. -/
def inRange (startT endT : ℤ) (k : Kline) : Bool :=
  startT ≤ k.openTime && k.closeTime ≤ endT

/-- The duplicate-removal loop of `loadHistoricalData` (lines 109-117):
keep a kline only when its `openTime` has not been seen yet. -/
def dedupByOpenTime : List Kline → List ℤ → List Kline
  | [], _ => []
  | k :: ks, seen =>
    if k.openTime ∈ seen then dedupByOpenTime ks seen
    else k :: dedupByOpenTime ks (k.openTime :: seen)

/-- Comparator of the final sort (line 119): ascending by `openTime`. -/
def klineLE (a b : Kline) : Bool := a.openTime ≤ b.openTime

/-- The post-processing of the accumulated kline pages in
`loadHistoricalData` (lines 104-119): range filter, dedup by `openTime`
keeping the first occurrence, then sort ascending by `openTime`. -/
def postProcess (data : List Kline) (startT endT : ℤ) : List Kline :=
  (dedupByOpenTime (data.filter (inRange startT endT)) []).mergeSort klineLE

/-- A profit-history entry as consumed by
`TrailingProfitMaximizer.getStatistics` (only the fields the reduction
reads). -/
structure StatTrade where
  profit : ℚ
  profitPercent : ℚ
  holdingTimeMs : ℚ
deriving DecidableEq, Repr

/-- The statistics record returned by `getStatistics`. -/
structure Stats where
  totalTrades : ℕ
  winningTrades : ℕ
  losingTrades : ℕ
  totalProfit : ℚ
  totalProfitPercent : ℚ
  biggestWin : ℚ
  biggestLoss : ℚ
  averageProfit : ℚ
  averageProfitPercent : ℚ
  winRate : ℚ
  profitFactor : ℚ
  averageHoldingTimeMs : ℚ
  averageHoldingTimeHours : ℚ
deriving DecidableEq, Repr

/-- The all-zero statistics record (`stats` initializer, lines 275-289). -/
def zeroStats (n : ℕ) : Stats :=
  { totalTrades := n
    winningTrades := 0
    losingTrades := 0
    totalProfit := 0
    totalProfitPercent := 0
    biggestWin := 0
    biggestLoss := 0
    averageProfit := 0
    averageProfitPercent := 0
    winRate := 0
    profitFactor := 0
    averageHoldingTimeMs := 0
    averageHoldingTimeHours := 0 }

/-- Accumulator state of the `for (const trade of this.profitHistory)`
loop in `getStatistics`: the running `stats` plus the local
`totalWinAmount`, `totalLossAmount`, `totalHoldingTimeMs`. -/
structure StatsAcc where
  stats : Stats
  totalWinAmount : ℚ
  totalLossAmount : ℚ
  totalHoldingTimeMs : ℚ
deriving Repr

/-- Loop body of `getStatistics` (lines 297-311). -/
def statStep (acc : StatsAcc) (t : StatTrade) : StatsAcc :=
  let s := acc.stats
  let s := { s with
    totalProfit := s.totalProfit + t.profit
    totalProfitPercent := s.totalProfitPercent + t.profitPercent }
  if 0 < t.profit then
    { acc with
      stats := { s with
        winningTrades := s.winningTrades + 1
        biggestWin := max s.biggestWin t.profit }
      totalWinAmount := acc.totalWinAmount + t.profit
      totalHoldingTimeMs := acc.totalHoldingTimeMs + t.holdingTimeMs }
  else
    { acc with
      stats := { s with
        losingTrades := s.losingTrades + 1
        biggestLoss := min s.biggestLoss t.profit }
      totalLossAmount := acc.totalLossAmount + |t.profit|
      totalHoldingTimeMs := acc.totalHoldingTimeMs + t.holdingTimeMs }

/-- `TrailingProfitMaximizer.getStatistics()` (lines 274-321): early
return of the all-zero record when the history is empty, otherwise one
reduction pass followed by the derived averages and the profit factor. -/
def getStatistics (history : List StatTrade) : Stats :=
  let n := history.length
  if n = 0 then zeroStats 0
  else
    let acc := history.foldl statStep ⟨zeroStats n, 0, 0, 0⟩
    let s := acc.stats
    { s with
      averageProfit := s.totalProfit / n
      averageProfitPercent := s.totalProfitPercent / n
      winRate := ((s.winningTrades : ℚ) / n) * 100
      profitFactor :=
        if 0 < acc.totalLossAmount then acc.totalWinAmount / acc.totalLossAmount
        else acc.totalWinAmount
      averageHoldingTimeMs := acc.totalHoldingTimeMs / n
      averageHoldingTimeHours := acc.totalHoldingTimeMs / n / (1000 * 60 * 60) }

/-- A price observation or a trailing-stop update applied to a single
ACTIVE position.  `observe c h` covers both observation shapes in the
source: `refreshPrices` (lines 98-109, with `c = h = fetched price`) and
the backtester's per-candle update (lines 216-235, with `c = close`,
`h = high`): assign `currentPrice`, raise `highestPrice` if the observed
high exceeds it, and recompute profit.  `update s` is a
`position.updateTrailingStop(s)` call. -/
inductive Event where
  | observe (c h : ℚ)
  | update (s : TrailSettings)
deriving Repr

/-- Apply one event to a position. -/
def stepEvent (p : Position) (e : Event) : Position :=
  match e with
  | Event.observe c h =>
      updateProfit
        { p with
          currentPrice := c
          highestPrice := if h > p.highestPrice then h else p.highestPrice }
  | Event.update s => updateTrailingStop p s

/-- The trace of states a position passes through under a sequence of
events (initial state included). -/
def statesOf (p : Position) (es : List Event) : List Position :=
  es.scanl stepEvent p

/-! ## Basic lemmas about the ratchet -/

theorem updateProfit_status (p : Position) : (updateProfit p).status = p.status := by
  unfold updateProfit; split <;> rfl

theorem updateProfit_stop (p : Position) :
    (updateProfit p).currentTrailingStop = p.currentTrailingStop := by
  unfold updateProfit; split <;> rfl

theorem updateProfit_highestPrice (p : Position) :
    (updateProfit p).highestPrice = p.highestPrice := by
  unfold updateProfit; split <;> rfl

theorem updateProfit_currentPrice (p : Position) :
    (updateProfit p).currentPrice = p.currentPrice := by
  unfold updateProfit; split <;> rfl

theorem updateProfit_entryPrice (p : Position) :
    (updateProfit p).entryPrice = p.entryPrice := by
  unfold updateProfit; split <;> rfl

theorem updateTrailingStop_status (p : Position) (s : TrailSettings) :
    (updateTrailingStop p s).status = p.status := by
  simp only [updateTrailingStop, setInitialStop, updateProfit]
  repeat' split
  all_goals rfl

theorem updateTrailingStop_highestPrice (p : Position) (s : TrailSettings) :
    (updateTrailingStop p s).highestPrice = p.highestPrice := by
  simp only [updateTrailingStop, setInitialStop, updateProfit]
  repeat' split
  all_goals rfl

theorem updateTrailingStop_currentPrice (p : Position) (s : TrailSettings) :
    (updateTrailingStop p s).currentPrice = p.currentPrice := by
  simp only [updateTrailingStop, setInitialStop, updateProfit]
  repeat' split
  all_goals rfl

theorem updateTrailingStop_entryPrice (p : Position) (s : TrailSettings) :
    (updateTrailingStop p s).entryPrice = p.entryPrice := by
  simp only [updateTrailingStop, setInitialStop, updateProfit]
  repeat' split
  all_goals rfl

theorem updateTrailingStop_ts (p : Position) (s : TrailSettings) :
    (updateTrailingStop p s).trailingSettings = resolveActive s p := by
  simp only [updateTrailingStop, setInitialStop, updateProfit, resolveActive]
  repeat' split
  all_goals rfl

/-- Once nonzero, one ratchet call never lowers the stop. -/
theorem updateTrailingStop_mono (p : Position) (s : TrailSettings)
    (h : p.currentTrailingStop ≠ 0) :
    p.currentTrailingStop ≤ (updateTrailingStop p s).currentTrailingStop := by
  simp only [updateTrailingStop, h, if_false]
  split
  · rw [updateProfit_stop]
  · split
    · next h2 =>
        rw [updateProfit_stop] at h2
        exact le_of_lt h2
    · rw [updateProfit_stop]

/-- A positive stop stays positive across one ratchet call. -/
theorem updateTrailingStop_pos (p : Position) (s : TrailSettings)
    (h : 0 < p.currentTrailingStop) :
    0 < (updateTrailingStop p s).currentTrailingStop :=
  lt_of_lt_of_le h (updateTrailingStop_mono p s (ne_of_gt h))

/-! ## Claim C8 -/

/-- C8: when `currentTrailingStop == 0`, `updateTrailingStop` sets both
`initialStopPrice` and `currentTrailingStop` to
`entryPrice − entryPrice * (initialStopDistancePercent / 100)` and
returns immediately: the full result record shows nothing else (in
particular not the activation gate or the profit fields) is touched. -/
theorem c8_initial_stop_setup (p : Position) (s : TrailSettings)
    (h : p.currentTrailingStop = 0) :
    updateTrailingStop p s =
      { p with
        trailingSettings := resolveActive s p
        initialStopPrice := p.entryPrice -
          p.entryPrice * (jsOr s.initialStopDistancePercent
            (jsOr p.trailingSettings.initialStopDistancePercent 2) / 100)
        currentTrailingStop := p.entryPrice -
          p.entryPrice * (jsOr s.initialStopDistancePercent
            (jsOr p.trailingSettings.initialStopDistancePercent 2) / 100) } := by
  unfold updateTrailingStop setInitialStop resolveActive
  simp [h]

/-- C8 witness: with `entryPrice = 100` and default settings
(`initialStopDistancePercent = 2`) the first call returns exactly 98. -/
theorem c8_witness :
    (updateTrailingStop (Position.mk0 "BTCUSDT" 100 1)
      ⟨none, none, none⟩).currentTrailingStop = 98 := by
  rw [c8_initial_stop_setup (Position.mk0 "BTCUSDT" 100 1) ⟨none, none, none⟩ rfl]
  norm_num [Position.mk0, jsOr]

/-! ## Claim C4 -/

/-- C4: with a nonzero stop, when the profit percentage recomputed from
`currentPrice` is strictly below the effective activation threshold, the
call leaves `currentTrailingStop` unchanged, whatever `highestPrice` is. -/
theorem c4_activation_gate (p : Position) (s : TrailSettings)
    (h0 : p.currentTrailingStop ≠ 0)
    (hgate : (updateProfit p).profitPercent <
      jsOr s.activationThresholdPercent
        (jsOr p.trailingSettings.activationThresholdPercent 1)) :
    (updateTrailingStop p s).currentTrailingStop = p.currentTrailingStop := by
  unfold updateTrailingStop
  simp only [h0, if_false]
  have hup : updateProfit { p with trailingSettings :=
      ⟨some (jsOr s.initialStopDistancePercent
          (jsOr p.trailingSettings.initialStopDistancePercent 2)),
       some (jsOr s.activationThresholdPercent
          (jsOr p.trailingSettings.activationThresholdPercent 1)),
       some (jsOr s.trailingDistancePercent
          (jsOr p.trailingSettings.trailingDistancePercent (3/2)))⟩ } =
      { updateProfit p with trailingSettings :=
        ⟨some (jsOr s.initialStopDistancePercent
            (jsOr p.trailingSettings.initialStopDistancePercent 2)),
         some (jsOr s.activationThresholdPercent
            (jsOr p.trailingSettings.activationThresholdPercent 1)),
         some (jsOr s.trailingDistancePercent
            (jsOr p.trailingSettings.trailingDistancePercent (3/2)))⟩ } := by
    unfold updateProfit; split <;> simp_all
  simp only [hup]
  simp [hgate, updateProfit_stop]

/-- C4 witness: entry 100, current price 100.5 (profit 0.5% < threshold 1),
highest price 200, stop 98: the call returns 98 unchanged. -/
theorem c4_witness :
    (updateTrailingStop
      { Position.mk0 "BTCUSDT" 100 1 with
          currentPrice := 201/2, highestPrice := 200,
          initialStopPrice := 98, currentTrailingStop := 98 }
      ⟨none, none, none⟩).currentTrailingStop = 98 := by
  rw [c4_activation_gate _ _ (by norm_num) (by norm_num [updateProfit, Position.mk0, jsOr])]

/-! ## Claim C10 -/

/-- C10: every `updateTrailingStop` call — whatever branch it takes —
overwrites the stored `trailingSettings` with the resolved effective
triple, and afterwards no component is `null` anymore. -/
theorem c10_settings_overwritten (p : Position) (s : TrailSettings) :
    (updateTrailingStop p s).trailingSettings = resolveActive s p ∧
    (updateTrailingStop p s).trailingSettings.initialStopDistancePercent ≠ none ∧
    (updateTrailingStop p s).trailingSettings.activationThresholdPercent ≠ none ∧
    (updateTrailingStop p s).trailingSettings.trailingDistancePercent ≠ none := by
  refine ⟨updateTrailingStop_ts p s, ?_, ?_, ?_⟩ <;>
    simp [updateTrailingStop_ts, resolveActive]

/-! ## Claim C5 -/

/-- C5 counterexample: a call-site value of 0 does NOT take precedence:
with stored `initialStopDistancePercent = 5` and a call supplying 0, the
effective distance is 5 (initial stop 95), not 0 (initial stop 100), and
the stored settings keep 5. -/
theorem c5_counterexample :
    (updateTrailingStop
        { Position.mk0 "BTCUSDT" 100 1 with
            trailingSettings := ⟨some 5, some 1, some (3/2)⟩ }
        ⟨some 0, none, none⟩).currentTrailingStop = 95 ∧
    (updateTrailingStop
        { Position.mk0 "BTCUSDT" 100 1 with
            trailingSettings := ⟨some 5, some 1, some (3/2)⟩ }
        ⟨some 0, none, none⟩).currentTrailingStop ≠ 100 ∧
    (updateTrailingStop
        { Position.mk0 "BTCUSDT" 100 1 with
            trailingSettings := ⟨some 5, some 1, some (3/2)⟩ }
        ⟨some 0, none, none⟩).trailingSettings.initialStopDistancePercent = some 5 := by
  refine ⟨?_, ?_, ?_⟩ <;>
    norm_num [updateTrailingStop, setInitialStop, Position.mk0, jsOr]

/-- Modelled from the spec words as amended: a value counts as supplied
only when it is present and nonzero (JavaScript truthiness); precedence
is call-site > stored per-position value > global default. -/
def resolveSettingSpec (callSite stored : Option ℚ) (dflt : ℚ) : ℚ :=
  match callSite with
  | some v =>
    if v ≠ 0 then v
    else
      match stored with
      | some w => if w ≠ 0 then w else dflt
      | none => dflt
  | none =>
    match stored with
    | some w => if w ≠ 0 then w else dflt
    | none => dflt

/-- C5 (amended): each effective setting follows the precedence call-site
> stored > default `(2, 1, 1.5)`, where a value is "supplied" only if it
is present and nonzero (a supplied 0 is treated as absent); the resolved
triple is what every `updateTrailingStop` call stores. -/
theorem c5_amended_precedence (p : Position) (s : TrailSettings) :
    (updateTrailingStop p s).trailingSettings =
      ⟨some (resolveSettingSpec s.initialStopDistancePercent
              p.trailingSettings.initialStopDistancePercent 2),
       some (resolveSettingSpec s.activationThresholdPercent
              p.trailingSettings.activationThresholdPercent 1),
       some (resolveSettingSpec s.trailingDistancePercent
              p.trailingSettings.trailingDistancePercent (3/2))⟩ := by
  rw [updateTrailingStop_ts]
  unfold resolveActive
  have : ∀ (c st : Option ℚ) (d : ℚ), jsOr c (jsOr st d) = resolveSettingSpec c st d := by
    intro c st d
    rcases c with _ | v <;> rcases st with _ | w <;>
      simp [jsOr, resolveSettingSpec]
  simp [this]

/-! ## Claim C9 -/

/-- The reduction loop on an all-winning history accumulates no loss
amount and sums all profits into the win amount. -/
theorem foldl_statStep_win (l : List StatTrade) (acc : StatsAcc)
    (hl : ∀ t ∈ l, 0 < t.profit) :
    (l.foldl statStep acc).totalLossAmount = acc.totalLossAmount ∧
    (l.foldl statStep acc).totalWinAmount =
      acc.totalWinAmount + (l.map StatTrade.profit).sum := by
  induction l generalizing acc with
  | nil => simp
  | cons t ts ih =>
    have ht : 0 < t.profit := hl t (List.mem_cons_self t ts)
    have hts : ∀ u ∈ ts, 0 < u.profit := fun u hu => hl u (List.mem_cons_of_mem t hu)
    have := ih (statStep acc t) hts
    simp only [List.foldl_cons, List.map_cons, List.sum_cons]
    refine ⟨?_, ?_⟩
    · rw [this.1]; unfold statStep; simp [ht]
    · rw [this.2]; unfold statStep; simp [ht]; ring

/-- C9: `getStatistics` returns the all-zero record on an empty history,
and with only winning trades the profit factor is the total win amount
(the sum of the profits), not a division by the zero loss amount. -/
theorem c9_statistics :
    getStatistics [] = zeroStats 0 ∧
    ∀ l : List StatTrade, (∀ t ∈ l, 0 < t.profit) →
      (getStatistics l).profitFactor = (l.map StatTrade.profit).sum := by
  refine ⟨rfl, ?_⟩
  intro l hl
  cases l with
  | nil => simp [getStatistics, zeroStats]
  | cons t ts =>
    obtain ⟨h1, h2⟩ := foldl_statStep_win (t :: ts) ⟨zeroStats (t :: ts).length, 0, 0, 0⟩ hl
    have h1' : (List.foldl statStep ⟨zeroStats (t :: ts).length, 0, 0, 0⟩
        (t :: ts)).totalLossAmount = 0 := h1
    have h2' : (List.foldl statStep ⟨zeroStats (t :: ts).length, 0, 0, 0⟩
        (t :: ts)).totalWinAmount = 0 + (List.map StatTrade.profit (t :: ts)).sum := h2
    simp only [getStatistics]
    rw [if_neg (by simp)]
    dsimp only
    rw [h1', h2', if_neg (lt_irrefl 0)]
    exact zero_add _

/-- C9 witness: a two-trade all-winning history has profit factor 8. -/
theorem c9_witness :
    (getStatistics [⟨5, 1, 3600000⟩, ⟨3, 2, 7200000⟩]).profitFactor = 8 := by
  have h := c9_statistics.2 [⟨5, 1, 3600000⟩, ⟨3, 2, 7200000⟩]
    (by intro t ht; fin_cases ht <;> norm_num)
  rw [h]; norm_num

/-! ## Claim C6 -/

/-- Re-resolving settings against an already-resolved stored value is
stable: the second `||` chain returns the same effective value. -/
theorem jsOr_stable (c st : Option ℚ) (d : ℚ) :
    jsOr c (jsOr (some (jsOr c (jsOr st d))) d) = jsOr c (jsOr st d) := by
  rcases c with _ | v <;> rcases st with _ | w <;> simp only [jsOr]
  all_goals repeat' split
  all_goals simp_all

/-- C6 counterexample: the claimed idempotence fails in the very case the
claim includes — when the first call performs the initial stop setup.
With entry 100, current = highest = 110 and default settings, the first
call initializes the stop to 98 and returns immediately, while the second
call with the identical price observation ratchets it to 108.35. -/
theorem c6_counterexample :
    (updateTrailingStop
        { Position.mk0 "BTCUSDT" 100 1 with
            status := Status.ACTIVE, currentPrice := 110, highestPrice := 110 }
        ⟨none, none, none⟩).currentTrailingStop = 98 ∧
    (updateTrailingStop
      (updateTrailingStop
        { Position.mk0 "BTCUSDT" 100 1 with
            status := Status.ACTIVE, currentPrice := 110, highestPrice := 110 }
        ⟨none, none, none⟩)
      ⟨none, none, none⟩).currentTrailingStop = 10835/100 ∧
    (10835/100 : ℚ) ≠ 98 := by
  refine ⟨?_, ?_, by norm_num⟩ <;>
    norm_num [updateTrailingStop, Position.mk0, jsOr, setInitialStop, updateProfit]

/-- With an already positive stop, `updateTrailingStop` is idempotent on
the whole position record for a fixed settings argument. -/
theorem uts_idem (p : Position) (s : TrailSettings)
    (h : 0 < p.currentTrailingStop) :
    updateTrailingStop (updateTrailingStop p s) s = updateTrailingStop p s := by
  have h0 : p.currentTrailingStop ≠ 0 := ne_of_gt h
  by_cases hcp : p.currentPrice = 0
  · by_cases hg : p.profitPercent <
        jsOr s.activationThresholdPercent
          (jsOr p.trailingSettings.activationThresholdPercent 1)
    · simp [updateTrailingStop, updateProfit, h0, hcp, hg, jsOr_stable]
    · by_cases hr : p.highestPrice -
          p.highestPrice * (jsOr s.trailingDistancePercent
            (jsOr p.trailingSettings.trailingDistancePercent (3/2)) / 100) >
          p.currentTrailingStop
      · have hne : p.highestPrice -
            p.highestPrice * (jsOr s.trailingDistancePercent
              (jsOr p.trailingSettings.trailingDistancePercent (3/2)) / 100) ≠ 0 :=
          ne_of_gt (lt_trans h hr)
        simp [updateTrailingStop, updateProfit, h0, hcp, hg, hr, hne, jsOr_stable]
      · simp [updateTrailingStop, updateProfit, h0, hcp, hg, hr, jsOr_stable]
  · by_cases hg : (p.currentPrice / p.entryPrice - 1) * 100 <
        jsOr s.activationThresholdPercent
          (jsOr p.trailingSettings.activationThresholdPercent 1)
    · simp [updateTrailingStop, updateProfit, h0, hcp, hg, jsOr_stable]
    · by_cases hr : p.highestPrice -
          p.highestPrice * (jsOr s.trailingDistancePercent
            (jsOr p.trailingSettings.trailingDistancePercent (3/2)) / 100) >
          p.currentTrailingStop
      · have hne : p.highestPrice -
            p.highestPrice * (jsOr s.trailingDistancePercent
              (jsOr p.trailingSettings.trailingDistancePercent (3/2)) / 100) ≠ 0 :=
          ne_of_gt (lt_trans h hr)
        simp [updateTrailingStop, updateProfit, h0, hcp, hg, hr, hne, jsOr_stable]
      · simp [updateTrailingStop, updateProfit, h0, hcp, hg, hr, jsOr_stable]

/-- C6 (amended): calling `updateTrailingStop` twice in immediate
succession with unchanged `currentPrice` and `highestPrice` leaves the
position (hence `currentTrailingStop`) exactly as after a single call,
provided the stop was already initialized to a positive value before the
first call; the initial-setup case from `currentTrailingStop == 0` is
excluded, because there the first call returns before the ratchet and the
second call can move the stop. -/
theorem c6_amended_idempotent (p : Position) (s : TrailSettings)
    (h : 0 < p.currentTrailingStop) :
    updateTrailingStop (updateTrailingStop p s) s = updateTrailingStop p s :=
  uts_idem p s h

/-- C6 witness: a position with an already-initialized stop (98), entry
100 and current = highest = 110: the second call leaves the 108.35 stop
of the first call unchanged. -/
theorem c6_witness :
    updateTrailingStop
      (updateTrailingStop
        { Position.mk0 "BTCUSDT" 100 1 with
            status := Status.ACTIVE, currentPrice := 110, highestPrice := 110,
            initialStopPrice := 98, currentTrailingStop := 98 }
        ⟨none, none, none⟩)
      ⟨none, none, none⟩ =
    updateTrailingStop
      { Position.mk0 "BTCUSDT" 100 1 with
          status := Status.ACTIVE, currentPrice := 110, highestPrice := 110,
          initialStopPrice := 98, currentTrailingStop := 98 }
      ⟨none, none, none⟩ :=
  c6_amended_idempotent _ _ (by norm_num [Position.mk0])

/-! ## Claim C7 -/

/-- Every kline surviving deduplication comes from the input list. -/
theorem dedup_subset (l : List Kline) (seen : List ℤ) :
    ∀ k ∈ dedupByOpenTime l seen, k ∈ l := by
  induction l generalizing seen with
  | nil => simp [dedupByOpenTime]
  | cons a t ih =>
    intro k hk
    simp only [dedupByOpenTime] at hk
    split at hk
    · exact List.mem_cons_of_mem a (ih _ k hk)
    · rcases List.mem_cons.mp hk with rfl | hk'
      · exact List.mem_cons_self _ _
      · exact List.mem_cons_of_mem a (ih _ k hk')

/-- Deduplication keeps, for each `openTime`, exactly the first input
occurrence: any survivor is what `find?` on the input returns for its
`openTime` (and its `openTime` was not previously seen). -/
theorem dedup_find (l : List Kline) (seen : List ℤ) :
    ∀ k ∈ dedupByOpenTime l seen, k.openTime ∉ seen ∧
      l.find? (fun x => x.openTime == k.openTime) = some k := by
  induction l generalizing seen with
  | nil => simp [dedupByOpenTime]
  | cons a t ih =>
    intro k hk
    simp only [dedupByOpenTime] at hk
    by_cases ha : a.openTime ∈ seen
    · rw [if_pos ha] at hk
      obtain ⟨h1, h2⟩ := ih _ k hk
      refine ⟨h1, ?_⟩
      rw [List.find?_cons_of_neg, h2]
      simp only [beq_iff_eq]
      intro he
      exact h1 (he ▸ ha)
    · rw [if_neg ha] at hk
      rcases List.mem_cons.mp hk with rfl | hk'
      · refine ⟨ha, ?_⟩
        rw [List.find?_cons_of_pos]
        simp
      · obtain ⟨h1, h2⟩ := ih _ k hk'
        have hne : a.openTime ≠ k.openTime := fun he => h1 (by simp [he.symm])
        refine ⟨fun hs => h1 (List.mem_cons_of_mem _ hs), ?_⟩
        rw [List.find?_cons_of_neg, h2]
        simp [hne]

/-- The `openTime` keys of the deduplicated list are pairwise distinct. -/
theorem dedup_keys_nodup (l : List Kline) (seen : List ℤ) :
    ((dedupByOpenTime l seen).map Kline.openTime).Nodup := by
  induction l generalizing seen with
  | nil => simp [dedupByOpenTime]
  | cons a t ih =>
    simp only [dedupByOpenTime]
    split
    · exact ih _
    · next ha =>
      simp only [List.map_cons, List.nodup_cons]
      refine ⟨?_, ih _⟩
      intro hmem
      obtain ⟨x, hx, hxe⟩ := List.mem_map.mp hmem
      exact (dedup_find t (a.openTime :: seen) x hx).1 (by simp [hxe])

/-- C7: the loader post-processing yields strictly ascending (hence
unique) `openTime` values, only candles inside the requested date range,
and for each surviving `openTime` exactly the first occurrence among the
in-range accumulated candles. -/
theorem c7_loader_postprocess (data : List Kline) (startT endT : ℤ) :
    (postProcess data startT endT).Pairwise (fun a b => a.openTime < b.openTime) ∧
    (∀ k ∈ postProcess data startT endT, startT ≤ k.openTime ∧ k.closeTime ≤ endT) ∧
    ∀ k ∈ postProcess data startT endT,
      (data.filter (inRange startT endT)).find? (fun x => x.openTime == k.openTime)
        = some k := by
  have hsorted : (postProcess data startT endT).Pairwise
      (fun a b => klineLE a b = true) := by
    unfold postProcess
    exact List.sorted_mergeSort
      (by intro a b c hab hbc; simp only [klineLE, decide_eq_true_eq] at *; omega)
      (by intro a b; simp only [klineLE, Bool.or_eq_true, decide_eq_true_eq]; omega) _
  have hperm : List.Perm (postProcess data startT endT)
      (dedupByOpenTime (data.filter (inRange startT endT)) []) :=
    List.mergeSort_perm _ _
  have hnd : ((postProcess data startT endT).map Kline.openTime).Nodup :=
    ((hperm.map Kline.openTime).nodup_iff).mpr
      (dedup_keys_nodup (data.filter (inRange startT endT)) [])
  have hne : (postProcess data startT endT).Pairwise
      (fun a b => a.openTime ≠ b.openTime) := List.pairwise_map.mp hnd
  refine ⟨?_, ?_, ?_⟩
  · exact (hsorted.and hne).imp
      (fun hab => lt_of_le_of_ne (by simpa [klineLE] using hab.1) hab.2)
  · intro k hk
    have hk' : k ∈ dedupByOpenTime (data.filter (inRange startT endT)) [] :=
      hperm.mem_iff.mp hk
    have hkf : k ∈ data.filter (inRange startT endT) :=
      dedup_subset _ _ k hk'
    have := (List.mem_filter.mp hkf).2
    simpa [inRange, Bool.and_eq_true, decide_eq_true_eq] using this
  · intro k hk
    have hk' : k ∈ dedupByOpenTime (data.filter (inRange startT endT)) [] :=
      hperm.mem_iff.mp hk
    exact (dedup_find _ [] k hk').2

/-- Two overlapping synthetic pages accumulated out of order, with a
duplicated `openTime` (200, second occurrence carrying different payload)
and two out-of-range candles. -/
def c7data : List Kline :=
  [⟨200, 2, 3, 2, 3, 299⟩, ⟨-50, 1, 1, 1, 1, 10⟩, ⟨100, 1, 2, 1, 2, 199⟩,
   ⟨200, 9, 9, 9, 9, 299⟩, ⟨300, 3, 4, 3, 4, 1500⟩]

/-- C7 witness: on the synthetic overlapping pages the post-processing is
strictly ascending, the surviving duplicate is in range, and it is the
first in-range occurrence of `openTime = 200` (payload 2/3/2/3, not
9/9/9/9). -/
theorem c7_witness :
    (postProcess c7data 0 1000).Pairwise (fun a b => a.openTime < b.openTime) ∧
    ((0 : ℤ) ≤ (⟨200, 2, 3, 2, 3, 299⟩ : Kline).openTime ∧
      (⟨200, 2, 3, 2, 3, 299⟩ : Kline).closeTime ≤ 1000) ∧
    (c7data.filter (inRange 0 1000)).find?
      (fun x => x.openTime == (⟨200, 2, 3, 2, 3, 299⟩ : Kline).openTime)
        = some ⟨200, 2, 3, 2, 3, 299⟩ := by
  obtain ⟨h1, h2, h3⟩ := c7_loader_postprocess c7data 0 1000
  have hmem : (⟨200, 2, 3, 2, 3, 299⟩ : Kline) ∈ postProcess c7data 0 1000 := by
    have he : postProcess c7data 0 1000 =
        [⟨100, 1, 2, 1, 2, 199⟩, ⟨200, 2, 3, 2, 3, 299⟩] := by
      simp [postProcess, c7data, inRange, dedupByOpenTime, List.mergeSort,
        List.splitInTwo, List.splitAt_eq, List.merge, klineLE]
    rw [he]
    simp
  exact ⟨h1, h2 _ hmem, h3 _ hmem⟩

/-! ## Claim C1 -/

/-- An optional percentage is admissible when absent or strictly between
0 and 100. -/
def GoodOpt (x : Option ℚ) : Prop := ∀ v ∈ x, 0 < v ∧ v < 100

/-- All three optional settings admissible. -/
def GoodSettings (s : TrailSettings) : Prop :=
  GoodOpt s.initialStopDistancePercent ∧
  GoodOpt s.activationThresholdPercent ∧
  GoodOpt s.trailingDistancePercent

/-- Event with admissible settings. -/
def GoodEvent : Event → Prop
  | Event.observe _ _ => True
  | Event.update s => GoodSettings s

/-- The claim's literal reading: supplied percentages merely positive. -/
def PosEvent : Event → Prop
  | Event.observe _ _ => True
  | Event.update s =>
    (∀ v ∈ s.initialStopDistancePercent, 0 < v) ∧
    (∀ v ∈ s.activationThresholdPercent, 0 < v) ∧
    (∀ v ∈ s.trailingDistancePercent, 0 < v)

/-- Sanity invariant of an ACTIVE position: positive entry below the
highest seen price, admissible stored settings, and a stop that is either
unset or positive and at most the highest price. -/
def PosInv (p : Position) : Prop :=
  0 < p.entryPrice ∧ p.entryPrice ≤ p.highestPrice ∧
  GoodSettings p.trailingSettings ∧
  (p.currentTrailingStop = 0 ∨
    (0 < p.currentTrailingStop ∧ p.currentTrailingStop ≤ p.highestPrice))

theorem updateProfit_ts (p : Position) :
    (updateProfit p).trailingSettings = p.trailingSettings := by
  unfold updateProfit; split <;> rfl

/-- Resolution of admissible inputs against the admissible defaults
yields a value strictly between 0 and 100. -/
theorem jsOr_good {c st : Option ℚ} {d : ℚ} (hc : GoodOpt c) (hst : GoodOpt st)
    (hd : 0 < d ∧ d < 100) :
    0 < jsOr c (jsOr st d) ∧ jsOr c (jsOr st d) < 100 := by
  rcases c with _ | v <;> rcases st with _ | w
  · simpa [jsOr] using hd
  · by_cases hw : w = 0
    · simpa [jsOr, hw] using hd
    · simpa [jsOr, hw] using hst w (by simp)
  · by_cases hv : v = 0
    · simpa [jsOr, hv] using hd
    · simpa [jsOr, hv] using hc v (by simp)
  · by_cases hv : v = 0
    · by_cases hw : w = 0
      · simpa [jsOr, hv, hw] using hd
      · simpa [jsOr, hv, hw] using hst w (by simp)
    · simpa [jsOr, hv] using hc v (by simp)

/-- The resolved effective triple is admissible. -/
theorem resolveActive_good (s : TrailSettings) (p : Position)
    (hs : GoodSettings s) (hp : GoodSettings p.trailingSettings) :
    GoodSettings (resolveActive s p) := by
  obtain ⟨hs1, hs2, hs3⟩ := hs
  obtain ⟨hp1, hp2, hp3⟩ := hp
  refine ⟨?_, ?_, ?_⟩ <;> intro v hv <;> simp [resolveActive] at hv <;> rw [← hv]
  · exact jsOr_good hs1 hp1 (by norm_num)
  · exact jsOr_good hs2 hp2 (by norm_num)
  · exact jsOr_good hs3 hp3 (by norm_num)

/-- Stop value produced by the initialization branch. -/
theorem uts_stop_of_zero (p : Position) (s : TrailSettings)
    (h : p.currentTrailingStop = 0) :
    (updateTrailingStop p s).currentTrailingStop =
      p.entryPrice - p.entryPrice *
        (jsOr s.initialStopDistancePercent
          (jsOr p.trailingSettings.initialStopDistancePercent 2) / 100) := by
  simp [updateTrailingStop, setInitialStop, h]

/-- With a nonzero stop, one call either keeps the stop or raises it to
`highestPrice - highestPrice * (trailingDistancePercent/100)`. -/
theorem uts_stop_cases (p : Position) (s : TrailSettings)
    (h : p.currentTrailingStop ≠ 0) :
    (updateTrailingStop p s).currentTrailingStop = p.currentTrailingStop ∨
    ((updateTrailingStop p s).currentTrailingStop =
        p.highestPrice - p.highestPrice *
          (jsOr s.trailingDistancePercent
            (jsOr p.trailingSettings.trailingDistancePercent (3/2)) / 100) ∧
      p.currentTrailingStop < (updateTrailingStop p s).currentTrailingStop) := by
  simp only [updateTrailingStop, h, if_false]
  split
  · left; exact updateProfit_stop _
  · split
    · next h2 =>
        right
        rw [updateProfit_stop] at h2
        refine ⟨?_, h2⟩
        rw [updateProfit_highestPrice]
    · left; exact updateProfit_stop _

/-- One event preserves the invariant, never lowers `highestPrice`, and —
once the stop is nonzero — never lowers the stop nor zeroes it. -/
theorem stepEvent_inv (p : Position) (e : Event) (hinv : PosInv p)
    (he : GoodEvent e) :
    PosInv (stepEvent p e) ∧
    p.highestPrice ≤ (stepEvent p e).highestPrice ∧
    (p.currentTrailingStop ≠ 0 →
      p.currentTrailingStop ≤ (stepEvent p e).currentTrailingStop ∧
      (stepEvent p e).currentTrailingStop ≠ 0) := by
  obtain ⟨hep, hephp, hgs, hstop⟩ := hinv
  cases e with
  | observe c h =>
    have hhp : (stepEvent p (Event.observe c h)).highestPrice =
        if h > p.highestPrice then h else p.highestPrice := by
      simp [stepEvent, updateProfit_highestPrice]
    have hst : (stepEvent p (Event.observe c h)).currentTrailingStop =
        p.currentTrailingStop := by
      simp [stepEvent, updateProfit_stop]
    have hepq : (stepEvent p (Event.observe c h)).entryPrice = p.entryPrice := by
      simp [stepEvent, updateProfit_entryPrice]
    have htsq : (stepEvent p (Event.observe c h)).trailingSettings =
        p.trailingSettings := by
      simp [stepEvent, updateProfit_ts]
    have hge : p.highestPrice ≤ if h > p.highestPrice then h else p.highestPrice := by
      split
      · next hgt => exact le_of_lt hgt
      · exact le_rfl
    refine ⟨⟨?_, ?_, ?_, ?_⟩, ?_, ?_⟩
    · rw [hepq]; exact hep
    · rw [hepq, hhp]; exact le_trans hephp hge
    · rw [htsq]; exact hgs
    · rw [hst, hhp]
      rcases hstop with h0 | ⟨h1, h2⟩
      · exact Or.inl h0
      · exact Or.inr ⟨h1, le_trans h2 hge⟩
    · rw [hhp]; exact hge
    · intro hne; rw [hst]; exact ⟨le_rfl, hne⟩
  | update s =>
    simp only [stepEvent]
    have hhp := updateTrailingStop_highestPrice p s
    have hepq := updateTrailingStop_entryPrice p s
    have htsq := updateTrailingStop_ts p s
    have hgood := resolveActive_good s p he hgs
    have hhp0 : 0 < p.highestPrice := lt_of_lt_of_le hep hephp
    rcases hstop with h0 | ⟨h1, h2⟩
    · -- initialization branch
      have hval := uts_stop_of_zero p s h0
      have hisd := jsOr_good he.1 hgs.1 (by norm_num : (0:ℚ) < 2 ∧ (2:ℚ) < 100)
      have hpos : 0 < (updateTrailingStop p s).currentTrailingStop := by
        rw [hval]
        have := hisd.2
        have h100 : jsOr s.initialStopDistancePercent
            (jsOr p.trailingSettings.initialStopDistancePercent 2) / 100 < 1 := by
          linarith
        nlinarith [hisd.1]
      have hle : (updateTrailingStop p s).currentTrailingStop ≤ p.highestPrice := by
        rw [hval]
        nlinarith [hisd.1, hisd.2]
      refine ⟨⟨?_, ?_, ?_, ?_⟩, ?_, ?_⟩
      · rw [hepq]; exact hep
      · rw [hepq, hhp]; exact hephp
      · rw [htsq]; exact hgood
      · rw [hhp]; exact Or.inr ⟨hpos, hle⟩
      · rw [hhp]
      · intro hne; exact absurd h0 hne
    · -- stop already set and positive
      have hne0 : p.currentTrailingStop ≠ 0 := ne_of_gt h1
      have htdp := jsOr_good he.2.2 hgs.2.2
        (by norm_num : (0:ℚ) < 3/2 ∧ (3/2:ℚ) < 100)
      have hcs := uts_stop_cases p s hne0
      have hpos : 0 < (updateTrailingStop p s).currentTrailingStop := by
        rcases hcs with hk | ⟨hv, _⟩
        · rw [hk]; exact h1
        · rw [hv]
          have := htdp.2
          nlinarith [htdp.1]
      have hle : (updateTrailingStop p s).currentTrailingStop ≤ p.highestPrice := by
        rcases hcs with hk | ⟨hv, _⟩
        · rw [hk]; exact h2
        · rw [hv]
          nlinarith [htdp.1, htdp.2]
      have hmono : p.currentTrailingStop ≤ (updateTrailingStop p s).currentTrailingStop := by
        rcases hcs with hk | ⟨_, hlt⟩
        · rw [hk]
        · exact le_of_lt hlt
      refine ⟨⟨?_, ?_, ?_, ?_⟩, ?_, ?_⟩
      · rw [hepq]; exact hep
      · rw [hepq, hhp]; exact hephp
      · rw [htsq]; exact hgood
      · rw [hhp]; exact Or.inr ⟨hpos, hle⟩
      · rw [hhp]
      · intro _; exact ⟨hmono, ne_of_gt hpos⟩

/-- Every state reached from an invariant state through admissible events
keeps the invariant, never saw `highestPrice` decrease, and kept a
once-nonzero stop nonzero and non-decreasing. -/
theorem reach_props (p : Position) (es : List Event) (hinv : PosInv p)
    (hes : ∀ e ∈ es, GoodEvent e) :
    ∀ q ∈ statesOf p es, PosInv q ∧ p.highestPrice ≤ q.highestPrice ∧
      (p.currentTrailingStop ≠ 0 →
        p.currentTrailingStop ≤ q.currentTrailingStop ∧
        q.currentTrailingStop ≠ 0) := by
  induction es generalizing p with
  | nil =>
    intro q hq
    simp only [statesOf, List.scanl_nil, List.mem_singleton] at hq
    subst hq
    exact ⟨hinv, le_rfl, fun h => ⟨le_rfl, h⟩⟩
  | cons e t ih =>
    intro q hq
    simp only [statesOf, List.scanl_cons] at hq
    rcases List.mem_cons.mp hq with rfl | hq'
    · exact ⟨hinv, le_rfl, fun h => ⟨le_rfl, h⟩⟩
    · have hstep := stepEvent_inv p e hinv (hes e (by simp))
      obtain ⟨hq1, hq2, hq3⟩ :=
        ih (stepEvent p e) hstep.1 (fun e' he' => hes e' (by simp [he'])) q hq'
      refine ⟨hq1, le_trans hstep.2.1 hq2, fun h => ?_⟩
      obtain ⟨ha, hb⟩ := hstep.2.2 h
      obtain ⟨hc, hd⟩ := hq3 hb
      exact ⟨le_trans ha hc, hd⟩

/-- The pairwise form of the two monotonicity statements over the trace. -/
theorem states_pairwise (p : Position) (es : List Event) (hinv : PosInv p)
    (hes : ∀ e ∈ es, GoodEvent e) :
    (statesOf p es).Pairwise (fun a b =>
      a.highestPrice ≤ b.highestPrice ∧
      (a.currentTrailingStop ≠ 0 →
        a.currentTrailingStop ≤ b.currentTrailingStop ∧
        b.currentTrailingStop ≠ 0)) := by
  induction es generalizing p with
  | nil => simp [statesOf]
  | cons e t ih =>
    simp only [statesOf, List.scanl_cons]
    have hstep := stepEvent_inv p e hinv (hes e (by simp))
    refine List.Pairwise.cons ?_
      (ih (stepEvent p e) hstep.1 (fun e' he' => hes e' (by simp [he'])))
    intro b hb
    obtain ⟨-, hb2, hb3⟩ :=
      reach_props (stepEvent p e) t hstep.1
        (fun e' he' => hes e' (by simp [he'])) b hb
    refine ⟨le_trans hstep.2.1 hb2, fun h => ?_⟩
    obtain ⟨ha, hbne⟩ := hstep.2.2 h
    obtain ⟨hc, hd⟩ := hb3 hbne
    exact ⟨le_trans ha hc, hd⟩

/-- C1 (amended): from an ACTIVE position satisfying the sanity invariant,
under any admissible event sequence (percentages strictly between 0 and
100), the full trace of states has non-decreasing `highestPrice`; once
`currentTrailingStop` is nonzero it stays nonzero and non-decreasing; and
every reached state with a nonzero stop (in particular once trailing has
activated) satisfies `currentTrailingStop ≤ highestPrice`. -/
theorem c1_amended_ratchet_invariants (p0 : Position) (es : List Event)
    (h0 : PosInv p0) (hes : ∀ e ∈ es, GoodEvent e) :
    (statesOf p0 es).Pairwise (fun a b => a.highestPrice ≤ b.highestPrice) ∧
    (statesOf p0 es).Pairwise (fun a b =>
      a.currentTrailingStop ≠ 0 →
        a.currentTrailingStop ≤ b.currentTrailingStop ∧
        b.currentTrailingStop ≠ 0) ∧
    ∀ q ∈ statesOf p0 es, q.currentTrailingStop ≠ 0 →
      q.currentTrailingStop ≤ q.highestPrice := by
  have hp := states_pairwise p0 es h0 hes
  refine ⟨hp.imp (fun h => h.1), hp.imp (fun h => h.2), ?_⟩
  intro q hq hne
  obtain ⟨⟨-, -, -, hsq⟩, -, -⟩ := reach_props p0 es h0 hes q hq
  rcases hsq with h0' | ⟨-, hle⟩
  · exact absurd h0' hne
  · exact hle

/-- A fresh ACTIVE position at entry price 100. -/
def c1Pos0 : Position :=
  { Position.mk0 "BTCUSDT" 100 1 with status := Status.ACTIVE }

/-- Positive but pathological settings: 150% initial distance, 100%
trailing distance. -/
def c1BadEvents : List Event :=
  [Event.update ⟨some 150, some 1, some 100⟩,
   Event.observe 110 110,
   Event.update ⟨some 150, some 1, some 100⟩,
   Event.update ⟨some 150, some 1, some 100⟩]

/-- C1 counterexample: with merely positive percentage settings the claim
fails.  Under `initialStopDistancePercent = 150` and
`trailingDistancePercent = 100` (both positive), the stop trace is
`0, -50, -50, 0, -50`: it is nonzero (−50) after the first call, later
rises to 0 by the ratchet, and then the re-initialization branch lowers
it back to −50 — `updateTrailingStop` lowered a once-nonzero stop. -/
theorem c1_counterexample :
    (∀ e ∈ c1BadEvents, PosEvent e) ∧
    (statesOf c1Pos0 c1BadEvents)[1]?.map Position.currentTrailingStop
      = some (-50) ∧
    (statesOf c1Pos0 c1BadEvents)[3]?.map Position.currentTrailingStop
      = some 0 ∧
    (statesOf c1Pos0 c1BadEvents)[4]?.map Position.currentTrailingStop
      = some (-50) ∧
    ((-50 : ℚ) ≠ 0 ∧ (-50 : ℚ) < 0) := by
  refine ⟨?_, ?_, ?_, ?_, by norm_num⟩
  · intro e he
    fin_cases he <;> simp [PosEvent] <;> norm_num
  all_goals
    norm_num [statesOf, stepEvent, updateTrailingStop, updateProfit,
      setInitialStop, jsOr, Position.mk0, c1Pos0, c1BadEvents, List.scanl]

/-- C1 witness: a fresh ACTIVE position at entry 100 under an observation
of 110 and one default-settings update satisfies all three amended
conclusions. -/
theorem c1_witness :
    (statesOf c1Pos0 [Event.observe 110 110, Event.update ⟨none, none, none⟩]).Pairwise
      (fun a b => a.highestPrice ≤ b.highestPrice) ∧
    (statesOf c1Pos0 [Event.observe 110 110, Event.update ⟨none, none, none⟩]).Pairwise
      (fun a b => a.currentTrailingStop ≠ 0 →
        a.currentTrailingStop ≤ b.currentTrailingStop ∧
        b.currentTrailingStop ≠ 0) ∧
    ∀ q ∈ statesOf c1Pos0 [Event.observe 110 110, Event.update ⟨none, none, none⟩],
      q.currentTrailingStop ≠ 0 → q.currentTrailingStop ≤ q.highestPrice :=
  c1_amended_ratchet_invariants c1Pos0
    [Event.observe 110 110, Event.update ⟨none, none, none⟩]
    (by
      refine ⟨by norm_num [c1Pos0, Position.mk0], by norm_num [c1Pos0, Position.mk0], ?_, ?_⟩
      · simp [c1Pos0, Position.mk0, GoodSettings, GoodOpt]
      · left; rfl)
    (by intro e he; fin_cases he <;> simp [GoodEvent, GoodSettings, GoodOpt])

/-! ## Claim C2 -/

theorem updateProfit_symbol (p : Position) : (updateProfit p).symbol = p.symbol := by
  unfold updateProfit; split <;> rfl

theorem updateProfit_quantity (p : Position) :
    (updateProfit p).quantity = p.quantity := by
  unfold updateProfit; split <;> rfl

theorem updateTrailingStop_symbol (p : Position) (s : TrailSettings) :
    (updateTrailingStop p s).symbol = p.symbol := by
  simp only [updateTrailingStop, setInitialStop, updateProfit]
  repeat' split
  all_goals rfl

theorem updateTrailingStop_quantity (p : Position) (s : TrailSettings) :
    (updateTrailingStop p s).quantity = p.quantity := by
  simp only [updateTrailingStop, setInitialStop, updateProfit]
  repeat' split
  all_goals rfl

/-- Fields of a closed position. -/
theorem closePos_fields (p : Position) (cp : ℚ) (r : String)
    (h : p.status ≠ Status.CLOSED) :
    (closePos p cp r).status = Status.CLOSED ∧
    (closePos p cp r).currentPrice = cp ∧
    (closePos p cp r).currentTrailingStop = p.currentTrailingStop ∧
    (closePos p cp r).highestPrice = p.highestPrice ∧
    (closePos p cp r).symbol = p.symbol ∧
    (closePos p cp r).entryPrice = p.entryPrice ∧
    (closePos p cp r).quantity = p.quantity := by
  unfold closePos
  rw [if_neg h]
  refine ⟨rfl, ?_, ?_, ?_, ?_, ?_, ?_⟩
  · rw [show (({ updateProfit { p with currentPrice := cp } with
        status := Status.CLOSED,
        notes := p.notes ++ " Closed: " ++ r } : Position).currentPrice)
      = (updateProfit { p with currentPrice := cp }).currentPrice from rfl,
      updateProfit_currentPrice]
  · rw [show (({ updateProfit { p with currentPrice := cp } with
        status := Status.CLOSED,
        notes := p.notes ++ " Closed: " ++ r } : Position).currentTrailingStop)
      = (updateProfit { p with currentPrice := cp }).currentTrailingStop from rfl,
      updateProfit_stop]
  · rw [show (({ updateProfit { p with currentPrice := cp } with
        status := Status.CLOSED,
        notes := p.notes ++ " Closed: " ++ r } : Position).highestPrice)
      = (updateProfit { p with currentPrice := cp }).highestPrice from rfl,
      updateProfit_highestPrice]
  · rw [show (({ updateProfit { p with currentPrice := cp } with
        status := Status.CLOSED,
        notes := p.notes ++ " Closed: " ++ r } : Position).symbol)
      = (updateProfit { p with currentPrice := cp }).symbol from rfl,
      updateProfit_symbol]
  · rw [show (({ updateProfit { p with currentPrice := cp } with
        status := Status.CLOSED,
        notes := p.notes ++ " Closed: " ++ r } : Position).entryPrice)
      = (updateProfit { p with currentPrice := cp }).entryPrice from rfl,
      updateProfit_entryPrice]
  · rw [show (({ updateProfit { p with currentPrice := cp } with
        status := Status.CLOSED,
        notes := p.notes ++ " Closed: " ++ r } : Position).quantity)
      = (updateProfit { p with currentPrice := cp }).quantity from rfl,
      updateProfit_quantity]

theorem innerPass_getElem (cfg : TrailSettings) (ps : List Position) (i : ℕ) :
    (innerPass cfg ps)[i]? = ps[i]?.map
      (fun p => if p.status = Status.ACTIVE then updateTrailingStop p cfg else p) := by
  simp [innerPass]

/-- How a position may look when the loop reaches its own index: still
ACTIVE with identity fields, highest price and current price untouched,
stop only ever raised by the interleaved passes. -/
def PreEntry (p q : Position) : Prop :=
  q.status = Status.ACTIVE ∧ q.symbol = p.symbol ∧ q.entryPrice = p.entryPrice ∧
  q.quantity = p.quantity ∧ q.highestPrice = p.highestPrice ∧
  p.currentTrailingStop ≤ q.currentTrailingStop

theorem PreEntry_update (cfg : TrailSettings) (p q : Position)
    (hq : PreEntry p q) (hpos : 0 < p.currentTrailingStop) :
    PreEntry p (updateTrailingStop q cfg) := by
  obtain ⟨h1, h2, h3, h4, h5, h6⟩ := hq
  refine ⟨?_, ?_, ?_, ?_, ?_, ?_⟩
  · rw [updateTrailingStop_status]; exact h1
  · rw [updateTrailingStop_symbol]; exact h2
  · rw [updateTrailingStop_entryPrice]; exact h3
  · rw [updateTrailingStop_quantity]; exact h4
  · rw [updateTrailingStop_highestPrice]; exact h5
  · exact le_trans h6 (updateTrailingStop_mono q cfg
      (ne_of_gt (lt_of_lt_of_le hpos h6)))

/-- A loop iteration at another index can only apply the interleaved pass
to our entry. -/
theorem processIdx_pre (cfg : TrailSettings) (high low close : ℚ)
    (st : List Position × List Trade) (j i : ℕ) (hne : j ≠ i)
    (p q : Position) (hq : st.1[i]? = some q) (hqp : PreEntry p q)
    (hpos : 0 < p.currentTrailingStop) :
    ∃ q', (processIdx cfg high low close st j).1[i]? = some q' ∧ PreEntry p q' := by
  unfold processIdx
  cases hj : st.1[j]? with
  | none => exact ⟨q, hq, hqp⟩
  | some pj =>
    dsimp only
    split
    · exact ⟨q, by dsimp only; rw [List.getElem?_set_ne hne]; exact hq, hqp⟩
    · split
      all_goals split
      all_goals
        first
          | exact ⟨q, by dsimp only; rw [List.getElem?_set_ne hne]; exact hq, hqp⟩
          | (dsimp only;
             rw [innerPass_getElem, List.getElem?_set_ne hne, hq];
             exact ⟨updateTrailingStop q cfg, by simp [hqp.1],
               PreEntry_update cfg p q hqp hpos⟩)

/-- A loop iteration never removes recorded trades. -/
theorem processIdx_trades (cfg : TrailSettings) (high low close : ℚ)
    (st : List Position × List Trade) (j : ℕ) (t : Trade) (ht : t ∈ st.2) :
    t ∈ (processIdx cfg high low close st j).2 := by
  unfold processIdx
  cases hj : st.1[j]? with
  | none => exact ht
  | some pj =>
    simp only []
    split
    · exact List.mem_append_left _ ht
    · split <;> exact ht

/-- Before its own turn, an entry not yet processed keeps `PreEntry`. -/
theorem fold_pre (cfg : TrailSettings) (high low close : ℚ) (pre : List ℕ)
    (i : ℕ) (hni : i ∉ pre) (p : Position) (hpos : 0 < p.currentTrailingStop) :
    ∀ (st : List Position × List Trade) (q : Position),
      st.1[i]? = some q → PreEntry p q →
      ∃ q', (pre.foldl (processIdx cfg high low close) st).1[i]? = some q' ∧
        PreEntry p q' := by
  induction pre with
  | nil => exact fun st q hq hqp => ⟨q, hq, hqp⟩
  | cons j t ih =>
    intro st q hq hqp
    have hji : j ≠ i := fun he => hni (he ▸ List.mem_cons_self j t)
    obtain ⟨q', hq', hqp'⟩ :=
      processIdx_pre cfg high low close st j i hji p q hq hqp hpos
    exact ih (fun hm => hni (List.mem_cons_of_mem j hm)) _ q' hq' hqp'

/-- After it has closed, an entry is never touched again and its trade
stays recorded. -/
theorem fold_closed (cfg : TrailSettings) (high low close : ℚ) (post : List ℕ)
    (i : ℕ) (hni : i ∉ post) :
    ∀ (st : List Position × List Trade) (q : Position),
      st.1[i]? = some q → q.status = Status.CLOSED →
      ∀ t ∈ st.2,
      (post.foldl (processIdx cfg high low close) st).1[i]? = some q ∧
        t ∈ (post.foldl (processIdx cfg high low close) st).2 := by
  induction post with
  | nil => exact fun st q hq _ t ht => ⟨hq, ht⟩
  | cons j tl ih =>
    intro st q hq hcl t ht
    have hji : j ≠ i := fun he => hni (he ▸ List.mem_cons_self j tl)
    have hstep : (processIdx cfg high low close st j).1[i]? = some q := by
      unfold processIdx
      cases hj : st.1[j]? with
      | none => exact hq
      | some pj =>
        dsimp only
        split
        · dsimp only; rw [List.getElem?_set_ne hji]; exact hq
        · split
          all_goals split
          all_goals
            first
              | (dsimp only; rw [List.getElem?_set_ne hji]; exact hq)
              | (dsimp only;
                 rw [innerPass_getElem, List.getElem?_set_ne hji, hq];
                 simp [hcl])
    exact ih (fun hm => hni (List.mem_cons_of_mem j hm)) _ q hstep hcl t
      (processIdx_trades cfg high low close st j t ht)

/-- The loop body at the entry's own turn under a triggering candle low:
the position closes at its current trailing stop and the trade record is
appended. -/
theorem processIdx_turn (cfg : TrailSettings) (high low close : ℚ)
    (st : List Position × List Trade) (i : ℕ) (q : Position)
    (hq : st.1[i]? = some q) (hact : q.status = Status.ACTIVE)
    (hpos : 0 < q.currentTrailingStop) (htrig : low ≤ q.currentTrailingStop) :
    processIdx cfg high low close st i =
      (st.1.set i (closePos (updateProfit { q with currentPrice := close })
          q.currentTrailingStop "StopLoss (Backtest)"),
       st.2 ++ [(closePosition (updateProfit { q with currentPrice := close })
          q.currentTrailingStop "StopLoss (Backtest)").2]) := by
  have hstop : (updateProfit { q with currentPrice := close }).currentTrailingStop
      = q.currentTrailingStop := updateProfit_stop _
  unfold processIdx
  rw [hq]
  simp only [hstop]
  rw [if_pos ⟨hpos, htrig⟩]
  rfl

theorem activeIdxs_nodup (ps : List Position) : (activeIdxs ps).Nodup :=
  (List.nodup_range _).filter _

theorem mem_activeIdxs (ps : List Position) (i : ℕ) (p : Position)
    (hip : ps[i]? = some p) (hact : p.status = Status.ACTIVE) :
    i ∈ activeIdxs ps := by
  unfold activeIdxs
  rw [List.mem_filter, List.mem_range]
  refine ⟨?_, ?_⟩
  · by_contra hge
    rw [List.getElem?_eq_none (le_of_not_lt hge)] at hip
    exact Option.noConfusion hip
  · rw [hip]
    simp [hact]

/-- C2 (amended): in the per-candle step, an ACTIVE position whose stop is
positive and reached by the candle low is closed exactly at its current
trailing stop (current price set to the stop, status CLOSED), its
`highestPrice` is not updated any further, the trade record carrying that
exact stop as exit price is appended with reason "StopLoss (Backtest)",
and the position takes no further part in the candle (neither the
remaining loop iterations nor the passes touch it). -/
theorem c2_amended_stop_trigger (cfg : TrailSettings) (high low close : ℚ)
    (ps : List Position) (i : ℕ) (p : Position)
    (hip : ps[i]? = some p) (hact : p.status = Status.ACTIVE)
    (hpos : 0 < p.currentTrailingStop) (htrig : low ≤ p.currentTrailingStop) :
    ∃ q t, (processCandle cfg high low close ps).1[i]? = some q ∧
      t ∈ (processCandle cfg high low close ps).2 ∧
      q.status = Status.CLOSED ∧
      q.currentPrice = q.currentTrailingStop ∧
      p.currentTrailingStop ≤ q.currentTrailingStop ∧
      q.highestPrice = p.highestPrice ∧
      t.exitPrice = q.currentTrailingStop ∧
      t.stopPrice = q.currentTrailingStop ∧
      t.reason = "StopLoss (Backtest)" ∧
      t.symbol = p.symbol ∧ t.entryPrice = p.entryPrice ∧
      t.quantity = p.quantity := by
  obtain ⟨pre, post, hsplit⟩ := List.append_of_mem (mem_activeIdxs ps i p hip hact)
  have hnd : (pre ++ i :: post).Nodup := hsplit ▸ activeIdxs_nodup ps
  have hipre : i ∉ pre := fun hm =>
    (List.nodup_append.mp hnd).2.2 hm (List.mem_cons_self i post)
  have hipost : i ∉ post :=
    (List.nodup_cons.mp (List.Nodup.of_append_right hnd)).1
  unfold processCandle
  rw [hsplit, List.foldl_append, List.foldl_cons]
  obtain ⟨qA, hqA, hpA⟩ := fold_pre cfg high low close pre i hipre p hpos
    (ps, []) p hip ⟨hact, rfl, rfl, rfl, rfl, le_rfl⟩
  obtain ⟨hstA, hsymA, hepA, hqtyA, hhpA, hstopA⟩ := hpA
  have hqpos : 0 < qA.currentTrailingStop := lt_of_lt_of_le hpos hstopA
  have hqtrig : low ≤ qA.currentTrailingStop := le_trans htrig hstopA
  rw [processIdx_turn cfg high low close _ i qA hqA hstA hqpos hqtrig]
  have hp1stop : (updateProfit { qA with currentPrice := close }).currentTrailingStop
      = qA.currentTrailingStop := updateProfit_stop _
  have hp1status : (updateProfit { qA with currentPrice := close }).status
      = Status.ACTIVE := by rw [updateProfit_status]; exact hstA
  have hp1ne : (updateProfit { qA with currentPrice := close }).status
      ≠ Status.CLOSED := by rw [hp1status]; simp
  obtain ⟨hc1, hc2, hc3, hc4, hc5, hc6, hc7⟩ :=
    closePos_fields (updateProfit { qA with currentPrice := close })
      qA.currentTrailingStop "StopLoss (Backtest)" hp1ne
  have hset : ((pre.foldl (processIdx cfg high low close) (ps, [])).1.set i
      (closePos (updateProfit { qA with currentPrice := close })
        qA.currentTrailingStop "StopLoss (Backtest)"))[i]?
      = some (closePos (updateProfit { qA with currentPrice := close })
        qA.currentTrailingStop "StopLoss (Backtest)") := by
    rw [List.getElem?_set_self', hqA]
    rfl
  obtain ⟨hfin1, hfin2⟩ := fold_closed cfg high low close post i hipost
    ((pre.foldl (processIdx cfg high low close) (ps, [])).1.set i
        (closePos (updateProfit { qA with currentPrice := close })
          qA.currentTrailingStop "StopLoss (Backtest)"),
     (pre.foldl (processIdx cfg high low close) (ps, [])).2 ++
       [(closePosition (updateProfit { qA with currentPrice := close })
          qA.currentTrailingStop "StopLoss (Backtest)").2])
    (closePos (updateProfit { qA with currentPrice := close })
      qA.currentTrailingStop "StopLoss (Backtest)")
    hset hc1
    ((closePosition (updateProfit { qA with currentPrice := close })
      qA.currentTrailingStop "StopLoss (Backtest)").2)
    (List.mem_append_right _ (List.mem_singleton_self _))
  refine ⟨closePos (updateProfit { qA with currentPrice := close })
      qA.currentTrailingStop "StopLoss (Backtest)",
    (closePosition (updateProfit { qA with currentPrice := close })
      qA.currentTrailingStop "StopLoss (Backtest)").2,
    ?_, hfin2, hc1, ?_, ?_, ?_, ?_, ?_, rfl, ?_, ?_, ?_⟩
  · dsimp only
    rw [innerPass_getElem, hfin1]
    simp [hc1]
  · rw [hc2, hc3, hp1stop]
  · rw [hc3, hp1stop]; exact hstopA
  · rw [hc4, updateProfit_highestPrice]; exact hhpA
  · show qA.currentTrailingStop = _
    rw [hc3, hp1stop]
  · show (closePos (updateProfit { qA with currentPrice := close })
        qA.currentTrailingStop "StopLoss (Backtest)").currentTrailingStop = _
    rw [hc3, hp1stop]
  · show (closePos (updateProfit { qA with currentPrice := close })
        qA.currentTrailingStop "StopLoss (Backtest)").symbol = _
    rw [hc5, updateProfit_symbol]; exact hsymA
  · show (closePos (updateProfit { qA with currentPrice := close })
        qA.currentTrailingStop "StopLoss (Backtest)").entryPrice = _
    rw [hc6, updateProfit_entryPrice]; exact hepA
  · show (closePos (updateProfit { qA with currentPrice := close })
        qA.currentTrailingStop "StopLoss (Backtest)").quantity = _
    rw [hc7, updateProfit_quantity]; exact hqtyA

/-- An ACTIVE position at entry 100 with an initialized trailing stop 98. -/
def c2Pos : Position :=
  { Position.mk0 "BTCUSDT" 100 1 with
      status := Status.ACTIVE, initialStopPrice := 98, currentTrailingStop := 98 }

/-- C2 counterexample: on a triggering candle (low 97 ≤ stop 98) the
backtester does close the position at exactly its trailing stop of 98 and
records the trade — but the recorded reason is the string
"StopLoss (Backtest)", not "StopLoss" as the claim states. -/
theorem c2_counterexample :
    (processCandle ⟨none, none, none⟩ 99 97 99 [c2Pos]).2.map Trade.reason
        = ["StopLoss (Backtest)"] ∧
    (processCandle ⟨none, none, none⟩ 99 97 99 [c2Pos]).2.map Trade.exitPrice
        = [98] ∧
    ∀ t ∈ (processCandle ⟨none, none, none⟩ 99 97 99 [c2Pos]).2,
      t.reason ≠ "StopLoss" := by
  refine ⟨?_, ?_, ?_⟩ <;>
    norm_num [processCandle, activeIdxs, processIdx, innerPass, closePosition,
      closePos, updateProfit, Position.mk0, c2Pos, List.range_succ] <;>
    decide

/-- C2 witness: the amended theorem applied to the single position above
with candle high 99, low 97, close 99. -/
theorem c2_witness :
    ∃ q t, (processCandle ⟨none, none, none⟩ 99 97 99 [c2Pos]).1[0]? = some q ∧
      t ∈ (processCandle ⟨none, none, none⟩ 99 97 99 [c2Pos]).2 ∧
      q.status = Status.CLOSED ∧
      q.currentPrice = q.currentTrailingStop ∧
      c2Pos.currentTrailingStop ≤ q.currentTrailingStop ∧
      q.highestPrice = c2Pos.highestPrice ∧
      t.exitPrice = q.currentTrailingStop ∧
      t.stopPrice = q.currentTrailingStop ∧
      t.reason = "StopLoss (Backtest)" ∧
      t.symbol = c2Pos.symbol ∧ t.entryPrice = c2Pos.entryPrice ∧
      t.quantity = c2Pos.quantity :=
  c2_amended_stop_trigger ⟨none, none, none⟩ 99 97 99 [c2Pos] 0 c2Pos
    rfl rfl (by norm_num [c2Pos, Position.mk0]) (by norm_num [c2Pos, Position.mk0])

/-! ## Claim C3 -/

/-- A closed position always reports CLOSED. -/
theorem closePos_status (p : Position) (cp : ℚ) (r : String) :
    (closePos p cp r).status = Status.CLOSED := by
  unfold closePos
  split
  · next h => exact h
  · rfl

theorem hpIte_status (p1 : Position) (high : ℚ) :
    (if high > p1.highestPrice then { p1 with highestPrice := high } else p1).status
      = p1.status := by split <;> rfl

theorem hpIte_stop (p1 : Position) (high : ℚ) :
    (if high > p1.highestPrice then { p1 with highestPrice := high }
      else p1).currentTrailingStop = p1.currentTrailingStop := by
  split <;> rfl

/-- Every ACTIVE position in the list has a positive stop and is a fixed
point of the configured trailing-stop update — exactly the state the
consolidated end-of-candle pass leaves each ACTIVE position in. -/
def FixAll (cfg : TrailSettings) (ps : List Position) : Prop :=
  ∀ q ∈ ps, q.status = Status.ACTIVE →
    0 < q.currentTrailingStop ∧ updateTrailingStop q cfg = q

/-- A bot-wide pass is the identity on a list of fixed points. -/
theorem innerPass_fix (cfg : TrailSettings) :
    ∀ ps : List Position, FixAll cfg ps → innerPass cfg ps = ps := by
  intro ps h
  induction ps with
  | nil => rfl
  | cons a t ih =>
    unfold innerPass
    simp only [List.map_cons]
    have ha : (if a.status = Status.ACTIVE then updateTrailingStop a cfg else a) = a := by
      split
      · next hact => exact (h a (List.mem_cons_self _ _) hact).2
      · rfl
    rw [ha]
    have ht := ih fun x hx hxa => h x (List.mem_cons_of_mem _ hx) hxa
    unfold innerPass at ht
    rw [ht]

/-- Pointwise relation between the interleaved and the batched run: an
entry is either untouched-identical, or the interleaved side has already
applied the trailing-stop update that the batched side will only apply in
the final pass. -/
def StepRel (cfg : TrailSettings) (pI pB : Position) : Prop :=
  pI = pB ∨ (pB.status = Status.ACTIVE ∧ 0 < pB.currentTrailingStop ∧
    pI = updateTrailingStop pB cfg)

/-- Lift a relation to optional entries. -/
def OptRel (r : Position → Position → Prop) :
    Option Position → Option Position → Prop
  | none, none => True
  | some x, some y => r x y
  | some _, none => False
  | none, some _ => False

theorem OptRel_refl (cfg : TrailSettings) (o : Option Position) :
    OptRel (StepRel cfg) o o := by
  cases o with
  | none => trivial
  | some x => exact Or.inl rfl

/-- Relation between the two candle-loop states while `rest` indices are
still to be processed. -/
def FoldRel (cfg : TrailSettings) (rest : List ℕ)
    (stI stB : List Position × List Trade) : Prop :=
  stI.2 = stB.2 ∧
  (∀ j ∈ rest, stI.1[j]? = stB.1[j]?) ∧
  (∀ j : ℕ, OptRel (StepRel cfg) stI.1[j]? stB.1[j]?) ∧
  FixAll cfg stI.1

/-- One loop iteration preserves the relation. -/
theorem step_rel (cfg : TrailSettings) (high low close : ℚ) (j : ℕ)
    (rest : List ℕ) (hj : j ∉ rest) (stI stB : List Position × List Trade)
    (hrel : FoldRel cfg (j :: rest) stI stB) :
    FoldRel cfg rest (processIdx cfg high low close stI j)
      (processIdxBatched high low close stB j) := by
  obtain ⟨htr, hrest, hopt, hfix⟩ := hrel
  have hjj : stI.1[j]? = stB.1[j]? := hrest j (List.mem_cons_self _ _)
  have hsetne : ∀ (l : List Position) (a : Position) (k : ℕ), k ∈ rest →
      (l.set j a)[k]? = l[k]? := by
    intro l a k hk
    exact List.getElem?_set_ne (fun he => hj (by rw [he]; exact hk))
  unfold processIdx processIdxBatched
  cases hq : stI.1[j]? with
  | none =>
    have hqB : stB.1[j]? = none := by rw [← hjj, hq]
    rw [hqB]
    exact ⟨htr, fun k hk => hrest k (List.mem_cons_of_mem j hk), hopt, hfix⟩
  | some q =>
    have hqB : stB.1[j]? = some q := by rw [← hjj, hq]
    rw [hqB]
    dsimp only
    have hp1stop : (updateProfit { q with currentPrice := close }).currentTrailingStop
        = q.currentTrailingStop := updateProfit_stop _
    have hp1status : (updateProfit { q with currentPrice := close }).status
        = q.status := updateProfit_status _
    generalize hp1 : updateProfit { q with currentPrice := close } = p1 at hp1stop hp1status ⊢
    have hp2status : (if high > p1.highestPrice
        then { p1 with highestPrice := high } else p1).status = p1.status :=
      hpIte_status p1 high
    have hp2stop : (if high > p1.highestPrice
        then { p1 with highestPrice := high } else p1).currentTrailingStop
        = p1.currentTrailingStop := hpIte_stop p1 high
    generalize hp2 : (if high > p1.highestPrice
        then { p1 with highestPrice := high } else p1) = p2 at hp2status hp2stop ⊢
    split
    · -- stop triggered: both sides close identically
      refine ⟨by dsimp only; rw [htr], ?_, ?_, ?_⟩
      · intro k hk
        dsimp only
        rw [hsetne _ _ k hk, hsetne _ _ k hk]
        exact hrest k (List.mem_cons_of_mem j hk)
      · intro k
        by_cases hkj : k = j
        · subst hkj
          dsimp only
          rw [List.getElem?_set_self', List.getElem?_set_self', hq, hqB]
          exact Or.inl rfl
        · have hjk : j ≠ k := fun he => hkj he.symm
          dsimp only
          rw [List.getElem?_set_ne hjk, List.getElem?_set_ne hjk]
          exact hopt k
      · intro x hx hxa
        rcases List.mem_or_eq_of_mem_set hx with hx' | rfl
        · exact hfix x hx' hxa
        · have hcl : ((closePosition p1 p1.currentTrailingStop
              "StopLoss (Backtest)").1).status = Status.CLOSED :=
            closePos_status _ _ _
          rw [hcl] at hxa
          exact absurd hxa (by simp)
    · -- not triggered
      by_cases hact : q.status = Status.ACTIVE
      · have hfs := hfix q (List.getElem?_mem hq) hact
        have hp2act : p2.status = Status.ACTIVE := by
          rw [hp2status, hp1status]; exact hact
        have hp2stop' : 0 < p2.currentTrailingStop := by
          rw [hp2stop, hp1stop]; exact hfs.1
        rw [if_pos hp2act]
        have hmap : stI.1.map (fun p => if p.status = Status.ACTIVE
            then updateTrailingStop p cfg else p) = stI.1 := by
          have := innerPass_fix cfg stI.1 hfix
          unfold innerPass at this
          exact this
        have hmapset : innerPass cfg (stI.1.set j p2)
            = stI.1.set j (updateTrailingStop p2 cfg) := by
          unfold innerPass
          rw [List.map_set, hmap, if_pos hp2act]
        rw [hmapset]
        refine ⟨htr, ?_, ?_, ?_⟩
        · intro k hk
          dsimp only
          rw [hsetne _ _ k hk, hsetne _ _ k hk]
          exact hrest k (List.mem_cons_of_mem j hk)
        · intro k
          by_cases hkj : k = j
          · subst hkj
            dsimp only
            rw [List.getElem?_set_self', List.getElem?_set_self', hq, hqB]
            exact Or.inr ⟨hp2act, hp2stop', rfl⟩
          · have hjk : j ≠ k := fun he => hkj he.symm
            dsimp only
            rw [List.getElem?_set_ne hjk, List.getElem?_set_ne hjk]
            exact hopt k
        · intro x hx hxa
          rcases List.mem_or_eq_of_mem_set hx with hx' | rfl
          · exact hfix x hx' hxa
          · exact ⟨updateTrailingStop_pos _ cfg hp2stop', uts_idem _ cfg hp2stop'⟩
      · have hp2nact : ¬ p2.status = Status.ACTIVE := by
          rw [hp2status, hp1status]; exact hact
        rw [if_neg hp2nact]
        refine ⟨htr, ?_, ?_, ?_⟩
        · intro k hk
          dsimp only
          rw [hsetne _ _ k hk, hsetne _ _ k hk]
          exact hrest k (List.mem_cons_of_mem j hk)
        · intro k
          by_cases hkj : k = j
          · subst hkj
            dsimp only
            rw [List.getElem?_set_self', List.getElem?_set_self', hq, hqB]
            exact Or.inl rfl
          · have hjk : j ≠ k := fun he => hkj he.symm
            dsimp only
            rw [List.getElem?_set_ne hjk, List.getElem?_set_ne hjk]
            exact hopt k
        · intro x hx hxa
          rcases List.mem_or_eq_of_mem_set hx with hx' | rfl
          · exact hfix x hx' hxa
          · exact absurd hxa hp2nact

/-- The relation survives the whole loop. -/
theorem fold_rel (cfg : TrailSettings) (high low close : ℚ) :
    ∀ rest : List ℕ, rest.Nodup →
    ∀ stI stB, FoldRel cfg rest stI stB →
      FoldRel cfg [] (rest.foldl (processIdx cfg high low close) stI)
        (rest.foldl (processIdxBatched high low close) stB) := by
  intro rest
  induction rest with
  | nil => intro _ stI stB h; exact ⟨h.1, by simp, h.2.2.1, h.2.2.2⟩
  | cons j t ih =>
    intro hnd stI stB h
    exact ih (List.nodup_cons.mp hnd).2 _ _
      (step_rel cfg high low close j t (List.nodup_cons.mp hnd).1 stI stB h)

/-- C3 (amended): provided every ACTIVE position enters the candle with a
positive trailing stop and in a fixed-point state of the configured
update (as the consolidated end-of-candle pass guarantees from the second
candle of a run onward), the interleaved per-candle step of
`Backtester.run` produces exactly the state and trades of the batched
reference semantics: the additional interleaved `updateTrailingStops`
invocations change nothing. -/
theorem c3_amended_batched_equivalence (cfg : TrailSettings)
    (high low close : ℚ) (ps : List Position) (hps : FixAll cfg ps) :
    processCandle cfg high low close ps =
      processCandleBatched cfg high low close ps := by
  simp only [processCandle, processCandleBatched]
  obtain ⟨htr, -, hopt, -⟩ := fold_rel cfg high low close (activeIdxs ps)
    (activeIdxs_nodup ps) (ps, []) (ps, [])
    ⟨rfl, fun j _ => rfl, fun j => OptRel_refl cfg _, hps⟩
  have hlist : innerPass cfg
      ((activeIdxs ps).foldl (processIdx cfg high low close) (ps, [])).1 =
      innerPass cfg
        ((activeIdxs ps).foldl (processIdxBatched high low close) (ps, [])).1 := by
    apply List.ext_getElem?
    intro k
    rw [innerPass_getElem, innerPass_getElem]
    have h := hopt k
    cases hI : ((activeIdxs ps).foldl (processIdx cfg high low close) (ps, [])).1[k]? with
    | none =>
      cases hB : ((activeIdxs ps).foldl (processIdxBatched high low close) (ps, [])).1[k]? with
      | none => rfl
      | some xB => rw [hI, hB] at h; exact h.elim
    | some xI =>
      cases hB : ((activeIdxs ps).foldl (processIdxBatched high low close) (ps, [])).1[k]? with
      | none => rw [hI, hB] at h; exact h.elim
      | some xB =>
        rw [hI, hB] at h
        rcases h with rfl | ⟨hbact, hbpos, rfl⟩
        · rfl
        · simp only [Option.map]
          have hIact : (updateTrailingStop xB cfg).status = Status.ACTIVE := by
            rw [updateTrailingStop_status]; exact hbact
          rw [if_pos hIact, if_pos hbact, uts_idem xB cfg hbpos]
  rw [hlist, htr]

/-- A fresh ACTIVE position (stop still unset) at entry 100. -/
def c3Pos : Position :=
  { Position.mk0 "BTCUSDT" 100 1 with status := Status.ACTIVE }

/-- C3 counterexample: for an ACTIVE position whose stop is still 0, the
interleaved step initializes the stop in the per-position loop and then
the final pass already ratchets it (108.35), while the batched reference
semantics only initializes it (98) — the end-of-candle stops differ and
the position is ACTIVE in both runs. -/
theorem c3_counterexample :
    (processCandle ⟨none, none, none⟩ 110 99 110 [c3Pos]).1.map
        Position.currentTrailingStop = [10835/100] ∧
    (processCandleBatched ⟨none, none, none⟩ 110 99 110 [c3Pos]).1.map
        Position.currentTrailingStop = [98] ∧
    (10835/100 : ℚ) ≠ 98 ∧
    (processCandle ⟨none, none, none⟩ 110 99 110 [c3Pos]).1.map Position.status
        = [Status.ACTIVE] ∧
    (processCandleBatched ⟨none, none, none⟩ 110 99 110 [c3Pos]).1.map Position.status
        = [Status.ACTIVE] := by
  refine ⟨?_, ?_, by norm_num, ?_, ?_⟩ <;>
    norm_num [processCandle, processCandleBatched, activeIdxs, processIdx,
      processIdxBatched, innerPass, updateTrailingStop, updateProfit,
      setInitialStop, jsOr, Position.mk0, c3Pos, List.range_succ]

/-- C3 witness: a one-position list in a fixed-point state (entry 100,
price and high 110, stop ratcheted to 108.35): interleaved and batched
candle processing coincide. -/
theorem c3_witness :
    processCandle ⟨none, none, none⟩ 111 109 111
        [{ Position.mk0 "BTCUSDT" 100 1 with
            status := Status.ACTIVE, currentPrice := 110, highestPrice := 110,
            profit := 10, profitPercent := 10,
            initialStopPrice := 98, currentTrailingStop := 10835/100,
            trailingSettings := ⟨some 2, some 1, some (3/2)⟩ }] =
      processCandleBatched ⟨none, none, none⟩ 111 109 111
        [{ Position.mk0 "BTCUSDT" 100 1 with
            status := Status.ACTIVE, currentPrice := 110, highestPrice := 110,
            profit := 10, profitPercent := 10,
            initialStopPrice := 98, currentTrailingStop := 10835/100,
            trailingSettings := ⟨some 2, some 1, some (3/2)⟩ }] :=
  c3_amended_batched_equivalence ⟨none, none, none⟩ 111 109 111 _
    (by
      intro q hq hact
      rw [List.mem_singleton] at hq
      subst hq
      refine ⟨by norm_num [Position.mk0], ?_⟩
      norm_num [updateTrailingStop, updateProfit, jsOr, Position.mk0])
